import Mathlib

/-!
Shallow embedding of the clinical record extraction and time-series
composition engine (`logic.py` and `tools.py`).

Patient records are FHIR-style resources.  Only the fields the embedded
functions actually touch are modelled; a dictionary field whose absence the
Python code would surface as a `KeyError` is modelled as an `Option` field,
and the Python exception is modelled as `Except.error ()`.  Dates are day
numbers (proleptic Gregorian civil-day count); datetime parsing is modelled
for date-only ISO-8601 strings.  Python `float` arithmetic is modelled by
exact rational arithmetic.
-/

deriving instance DecidableEq for Except

namespace HealthApp

/-- A single entry of a `coding` list: a code / display-text pair. -/
structure Coding where
  code : String
  display : String
deriving DecidableEq

/-- One entry of a `dosageInstruction` list: the optional
`timing.repeat.boundsPeriod.start` raw string and the optional free text. -/
structure Dosage where
  boundsStart : Option String
  text : Option String
deriving DecidableEq

/-- A FHIR resource, restricted to the variants and fields the engine reads.
Fields the Python code reads unconditionally are required; fields whose key
may be missing from the underlying dictionary are `Option`s. -/
inductive Resource where
  | patient (id : String) (birthDate : Option String)
  | condition (patientRef : String) (codings : List Coding)
      (freeText : Option String) (onsetDateTime : String)
  | observation (subjectRef : String) (codings : List Coding)
      (effectiveDateTime : Option String) (value : Option ℚ) (unit : String)
  | medicationOrder (patientRef : String) (codings : List Coding)
      (dosageInstruction : List Dosage)
  | other
deriving DecidableEq

/-- The loaded record store: a list of per-patient resource bundles. -/
abbrev FhirData := List (List Resource)

/-- Association-list lookup, the modelled Python dict access (keys are
unique in every mapping the engine builds). -/
def alookup {α β : Type} [DecidableEq α] : List (α × β) → α → Option β
  | [], _ => none
  | q :: qs, a => if q.1 = a then some q.2 else alookup qs a

/-- Python `str.lower()` (ASCII case folding, which is all the code uses). -/
def pyLower (s : String) : String :=
  String.mk (s.toList.map Char.toLower)

/-- Python `str.upper()` (ASCII case folding). -/
def pyUpper (s : String) : String :=
  String.mk (s.toList.map Char.toUpper)

/-- Python `needle in hay` on strings: contiguous-substring test. -/
def pyInStr (needle hay : String) : Bool :=
  (List.range (hay.toList.length + 1)).any fun i =>
    needle.toList.isPrefixOf (hay.toList.drop i)

/-- Day count of a proleptic Gregorian date (years from 1 on), the standard
civil-from-days construction, shifted so that 1970-01-01 is day 0.  This is
the value a parsed `datetime` is modelled as. -/
def daysFromCivil (y m d : Nat) : Int :=
  let y2 := if m ≤ 2 then y - 1 else y
  let era := y2 / 400
  let yoe := y2 - era * 400
  let m2 := if m > 2 then m - 3 else m + 9
  let doy := (153 * m2 + 2) / 5 + d - 1
  let doe := yoe * 365 + yoe / 4 - yoe / 100 + doy
  (era * 146097 + doe : Int) - 719468

/-- Parses a fixed-width run of ASCII digits. -/
def parseFixed (n : Nat) (cs : List Char) : Option Nat :=
  if cs.length = n ∧ cs.all Char.isDigit then
    some (cs.foldl (fun a c => 10 * a + (c.toNat - 48)) 0)
  else none

/-- Splits a character list at every dash. -/
def splitDash : List Char → List (List Char)
  | [] => [[]]
  | c :: cs =>
    let r := splitDash cs
    if c = '-' then [] :: r
    else
      match r with
      | [] => [[c]]
      | h :: t => (c :: h) :: t

/-- Modelled from the external `datetime.fromisoformat` collaborator,
restricted to date-only `YYYY-MM-DD` strings: any other shape is treated as
unparseable (`none`), which in the Python code surfaces as a `ValueError`. -/
def fromisoformat (s : String) : Option Int :=
  match splitDash s.toList with
  | [ys, ms, ds] =>
    match parseFixed 4 ys, parseFixed 2 ms, parseFixed 2 ds with
    | some y, some m, some d =>
      if 1 ≤ y ∧ 1 ≤ m ∧ m ≤ 12 ∧ 1 ≤ d ∧ d ≤ 31 then
        some (daysFromCivil y m d)
      else none
    | _, _, _ => none
  | _ => none

/-- The `for`-loop over resource entries with exception propagation: a step
returning `Except.error` aborts the whole traversal, as an uncaught Python
exception would. -/
def pyFold {α β : Type} (f : α → β → Except Unit α) : α → List β → Except Unit α
  | a, [] => .ok a
  | a, r :: rs =>
    match f a r with
    | .error e => .error e
    | .ok a2 => pyFold f a2 rs

/-- LOINC display codes of the cholesterol assay (`CHOLESTEROL` in
`logic.py`; the Python set is modelled as a duplicate-free list). -/
def CHOLESTEROL : List String := ["Cholest SerPl-mCnc"]

/-- LOINC display codes of the glucose assay (`GLUCOSE` in `logic.py`). -/
def GLUCOSE : List String :=
  ["Glucose SerPl-mCnc", "Glucose Bld-mCnc", "Glucose Ur Strip-mCnc",
   "Glucose CSF-mCnc", "Glucose p fast SerPl-mCnc"]

/-- SNOMED codes for hyperlipidemia (`HYPERLIPIDEMIA_CODES` in `logic.py`). -/
def HYPERLIPIDEMIA_CODES : List String := ["55822004", "267432004"]

/-- SNOMED codes for diabetes (`DIABETES_CODES` in `logic.py`). -/
def DIABETES_CODES : List String := ["327051000000109", "44054006", "44054105"]

/-- RxNorm codes of statin medications (`HYPERLIP_MED_CODES` in `logic.py`). -/
def HYPERLIP_MED_CODES : List String :=
  ["312961", "198211", "262095", "543354", "617318", "859749"]

/-- One coding of a Condition, matched as in `has_disorder`: code in the
disorder's fixed code set, or the disorder's name contained in the lowered
display text.  Only the two known disorder names match anything. -/
def condCodingMatches (disorder : String) (c : Coding) : Bool :=
  if pyLower disorder = "hyperlipidemia" then
    HYPERLIPIDEMIA_CODES.contains c.code || pyInStr "hyperlipidemia" (pyLower c.display)
  else if pyLower disorder = "diabetes" then
    DIABETES_CODES.contains c.code || pyInStr "diabetes" (pyLower c.display)
  else false

/-- The test `has_disorder` applies to one resource: a Condition of the
given patient with some matching coding qualifies, and the loop returns its
`onsetDateTime` (the raw string, as in the source). -/
def conditionQualifies (pid : Nat) (disorder : String) (r : Resource) : Option String :=
  match r with
  | .condition pref codings _ onset =>
    if pref = "Patient/" ++ toString pid && codings.any (condCodingMatches disorder) then
      some onset
    else none
  | _ => none

/-- The `has_disorder` loop: the first qualifying Condition's onset date. -/
def firstQualifying (pid : Nat) (disorder : String) : List Resource → Option String
  | [] => none
  | r :: rs =>
    match conditionQualifies pid disorder r with
    | some onset => some onset
    | none => firstQualifying pid disorder rs

/-- `has_disorder` from `logic.py`: first qualifying Condition in traversal
order wins and its onset date is returned. -/
def has_disorder (fhir : FhirData) (pid : Nat) (disorder : String) :
    Bool × Option String :=
  match firstQualifying pid disorder fhir.flatten with
  | some onset => (true, some onset)
  | none => (false, none)

/-- The active code set for a lab assay, as selected in `get_measurements`. -/
def measurementCodes (lab : String) : List String :=
  if pyLower lab = "cholesterol" then CHOLESTEROL
  else if pyLower lab = "glucose" then GLUCOSE
  else []

/-- One extracted measurement point: the dictionary of value and unit. -/
structure MeasPoint where
  value : ℚ
  unit : String
deriving DecidableEq

/-- The per-code inner mapping: exact date to list of points, in insertion
order as a Python dict. -/
abbrev DateMap := List (Int × List MeasPoint)

/-- The `get_measurements` output shape: code to per-date mapping. -/
abbrev MeasMap := List (String × DateMap)

/-- Python `if date not in d: d[date] = []` followed by `d[date].append(p)`:
appends to the list at an existing date key, or inserts a new date key at
the end. -/
def appendAtDate (m : DateMap) (d : Int) (p : MeasPoint) : DateMap :=
  if m.any (fun q => q.1 = d) then
    m.map fun q => if q.1 = d then (q.1, q.2 ++ [p]) else q
  else m ++ [(d, [p])]

/-- Appends a point under a code key (which `get_measurements` guarantees is
present, having initialized every active code). -/
def appendAtCode (mm : MeasMap) (c : String) (d : Int) (p : MeasPoint) : MeasMap :=
  mm.map fun q => if q.1 = c then (q.1, appendAtDate q.2 d p) else q

/-- Loop body of `get_measurements`.  Mirrors the source order of accesses:
`coding[0]` is read first (an empty coding list is an uncaught `IndexError`),
then the code-set test, then `fromisoformat(resource["effectiveDateTime"])`
with no exception handler (a missing key or an unparseable string is an
uncaught error), then the `value is not None` guard. -/
def stepMeas (codes : List String) (pid : Nat) (mm : MeasMap) (r : Resource) :
    Except Unit MeasMap :=
  match r with
  | .observation subj codings eff v u =>
    if subj = "Patient/" ++ toString pid then
      match codings.head? with
      | none => .error ()
      | some c0 =>
        if codes.contains c0.display then
          match eff with
          | none => .error ()
          | some s =>
            match fromisoformat s with
            | none => .error ()
            | some d =>
              match v with
              | none => .ok mm
              | some val => .ok (appendAtCode mm c0.display d ⟨val, u⟩)
        else .ok mm
    else .ok mm
  | _ => .ok mm

/-- `get_measurements` from `logic.py`. -/
def get_measurements (fhir : FhirData) (pid : Nat) (lab : String) :
    Except Unit MeasMap :=
  pyFold (stepMeas (measurementCodes lab) pid)
    ((measurementCodes lab).map fun c => (c, [])) fhir.flatten

/-- The active medication code set, as selected in `get_medications` (the
diabetes branch reuses the hyperlipidemia codes, per the source comment). -/
def medicationCodes (disorder : String) : List String :=
  if pyLower disorder = "hyperlipidemia" then HYPERLIP_MED_CODES
  else if pyLower disorder = "diabetes" then HYPERLIP_MED_CODES
  else []

/-- One extracted medication order: date (absent when the bounds period is
missing), display name, and dosage text. -/
structure MedRec where
  date : Option Int
  name : String
  dosage : String
deriving DecidableEq

/-- The `get_medications` output shape. -/
abbrev MedMap := List (String × List MedRec)

/-- The guarded date extraction of `get_medications`: `IndexError`,
`KeyError` and `TypeError` (a missing instruction, timing path or a null
start) are caught and yield `None`; a present but unparseable start string
is a `ValueError`, which the `except` clause does not catch. -/
def dosageDate (instr : List Dosage) : Except Unit (Option Int) :=
  match instr.head? with
  | none => .ok none
  | some d0 =>
    match d0.boundsStart with
    | none => .ok none
    | some s =>
      match fromisoformat s with
      | none => .error ()
      | some t => .ok (some t)

/-- The guarded dosage-text extraction: any missing piece yields the
explicit sentinel. -/
def dosageText (instr : List Dosage) : String :=
  ((instr.head?).bind (fun d0 => d0.text)).getD "No instructions provided"

/-- Loop body of `get_medications`: `coding[0]` is read before the code-set
test (an empty coding list on a matching patient's MedicationOrder is an
uncaught `IndexError`). -/
def stepMed (codes : List String) (pid : Nat) (acc : MedMap) (r : Resource) :
    Except Unit MedMap :=
  match r with
  | .medicationOrder pref codings instr =>
    if pref = "Patient/" ++ toString pid then
      match codings.head? with
      | none => .error ()
      | some c0 =>
        if codes.contains c0.code then
          match dosageDate instr with
          | .error e => .error e
          | .ok dt =>
            .ok (acc.map fun q =>
              if q.1 = c0.code then (q.1, q.2 ++ [⟨dt, c0.display, dosageText instr⟩])
              else q)
        else .ok acc
    else .ok acc
  | _ => .ok acc

/-- `get_medications` from `logic.py`. -/
def get_medications (fhir : FhirData) (pid : Nat) (disorder : String) :
    Except Unit MedMap :=
  pyFold (stepMed (medicationCodes disorder) pid)
    ((medicationCodes disorder).map fun c => (c, [])) fhir.flatten

/-- Loop body of the birth-date scan in `cholest_reference_values`: a
Patient resource with the matching id assigns
`fromisoformat(resource["birthDate"])` (a missing key or an unparseable
string is an uncaught error); the last matching Patient wins. -/
def stepBirth (pid : Nat) (acc : Option Int) (r : Resource) : Except Unit (Option Int) :=
  match r with
  | .patient i bd =>
    if i = toString pid then
      match bd with
      | none => .error ()
      | some s =>
        match fromisoformat s with
        | none => .error ()
        | some b => .ok (some b)
    else .ok acc
  | _ => .ok acc

/-- The birth-date scan of `cholest_reference_values` over the whole store. -/
def findBirthDate (fhir : FhirData) (pid : Nat) : Except Unit (Option Int) :=
  pyFold (stepBirth pid) none fhir.flatten

/-- The per-date bound pair of `cholest_reference_values`: age is
`(date - birth).days / 365` (true division, modelled exactly in ℚ). -/
def ageBand (b d : Int) : List Int :=
  if ((d - b : Int) : ℚ) / 365 < 20 then [170, 199] else [199, 239]

/-- Insertion into a strictly-sorted duplicate-free list. -/
def insSorted (x : Int) : List Int → List Int
  | [] => [x]
  | y :: ys =>
    if x < y then x :: y :: ys
    else if x = y then y :: ys
    else y :: insSorted x ys

/-- Python `sorted(set(l))`: the strictly increasing enumeration of the
distinct elements. -/
def sortedSet (l : List Int) : List Int := l.foldr insSorted []

/-- The measurement-date collection step of `cholest_reference_values`:
dates are gathered only when some code has measurements (the guard is the
source's `any(...)`; with no measurements the list stays empty). -/
def cholMeasDates (mm : MeasMap) : List Int :=
  if mm.any (fun q => !q.2.isEmpty) then (mm.map fun q => q.2.map Prod.fst).flatten
  else []

/-- `cholest_reference_values` from `logic.py`.  `today` stands for
`datetime.today()`, passed explicitly.  Returns `.ok none` when no Patient
resource with the given id exists (the Python `return None`). -/
def cholest_reference_values (fhir : FhirData) (pid : Nat) (today : Int) :
    Except Unit (Option (List (Int × List Int))) :=
  match findBirthDate fhir pid with
  | .error e => .error e
  | .ok none => .ok none
  | .ok (some b) =>
    match get_measurements fhir pid "Cholesterol" with
    | .error e => .error e
    | .ok mm =>
      let allDates := sortedSet ([b] ++ [b + 20 * 365] ++ cholMeasDates mm ++ [today])
      .ok (some (allDates.map fun d => (d, ageBand b d)))

/-- Modelled from matplotlib's `tab20c` colormap lookup, an external
collaborator: the palette has 20 discrete colors and a float position `x`
selects palette index `int(x * 20)` clipped into `[0, 19]` (the ℕ floor of a
negative position is 0, matching the under-range clip).  A color is
identified by its palette index. -/
def tab20c (x : ℚ) : ℕ := min ⌊x * 20⌋₊ 19

/-- `create_combined_colormap` from `tools.py`: measurement keys followed by
medication keys, colored at evenly spaced positions of `tab20c`.  With
exactly one code the source divides by zero (`i / (num_colors - 1)`), an
uncaught `ZeroDivisionError`. -/
def create_combined_colormap (meas : MeasMap) (med : MedMap) :
    Except Unit (List (String × ℕ)) :=
  let all_codes := (meas.map Prod.fst) ++ (med.map Prod.fst)
  let n := all_codes.length
  if n = 1 then .error ()
  else .ok (all_codes.zip ((List.range n).map fun (i : ℕ) => tab20c ((i : ℚ) / ((n : ℚ) - 1))))

/-- Python `min(l)` (the embedding only applies it to nonempty lists, as the
source does). -/
def pyMin {α : Type} [Min α] [Inhabited α] : List α → α
  | [] => default
  | x :: xs => xs.foldl min x

/-- Python `max(l)`. -/
def pyMax {α : Type} [Max α] [Inhabited α] : List α → α
  | [] => default
  | x :: xs => xs.foldl max x

/-- The date collection of `get_data_date_limits`: every date key of a
nonempty per-code measurement map, then every non-null medication date. -/
def allPlotDates (meas : MeasMap) (med : MedMap) : List Int :=
  (meas.map fun q => if q.2.isEmpty then [] else q.2.map Prod.fst).flatten
    ++ (med.map fun q => q.2.filterMap (fun r => r.date)).flatten

/-- `get_data_date_limits` from `tools.py`: 8 days of padding on each side,
or the explicit `(None, None)` signal when there is no dated data. -/
def get_data_date_limits (meas : MeasMap) (med : MedMap) : Option (Int × Int) :=
  let all := allPlotDates meas med
  if all.isEmpty then none
  else some (pyMin all - 8, pyMax all + 8)

/-- The cholesterol-axis default limits of `plot_measurements`:
`[min*0.9, max*1.1]` of its own values, or the fixed fallback `[0, 300]`. -/
def cholAxisLimits (cholesterol_values : List ℚ) : ℚ × ℚ :=
  if cholesterol_values.isEmpty then (0, 300)
  else (pyMin cholesterol_values * (9 / 10), pyMax cholesterol_values * (11 / 10))

/-- The glucose-axis default limits: `[min*0.9, max*1.1]` or `[0, 200]`. -/
def glucAxisLimits (glucose_values : List ℚ) : ℚ × ℚ :=
  if glucose_values.isEmpty then (0, 200)
  else (pyMin glucose_values * (9 / 10), pyMax glucose_values * (11 / 10))

/-- The slope `m = (125 - 100) / (239 - 199)` of the cholesterol-to-glucose
axis mapping in `plot_measurements`. -/
def glucoseMapSlope : ℚ := (125 - 100) / (239 - 199)

/-- The intercept `b = 125 - m * 239` of the axis mapping. -/
def glucoseMapIntercept : ℚ := 125 - glucoseMapSlope * 239

/-- The final dual-axis limit computation of `plot_measurements` (lines
283-323): with reference values present, the provisional cholesterol limits
are widened wherever the mapped glucose image would not contain the
glucose limits, and the glucose axis is the mapped cholesterol axis;
without reference values the two axes are independent. -/
def compute_axis_limits (cholesterol_values glucose_values : List ℚ)
    (hasRef : Bool) : (ℚ × ℚ) × (ℚ × ℚ) :=
  let cl := cholAxisLimits cholesterol_values
  let gl := glucAxisLimits glucose_values
  if hasRef then
    let ymin :=
      if gl.1 < glucoseMapSlope * cl.1 + glucoseMapIntercept then
        (gl.1 - glucoseMapIntercept) / glucoseMapSlope
      else cl.1
    let ymax :=
      if gl.2 > glucoseMapSlope * cl.2 + glucoseMapIntercept then
        (gl.2 - glucoseMapIntercept) / glucoseMapSlope
      else cl.2
    ((ymin, ymax),
     (glucoseMapSlope * ymin + glucoseMapIntercept,
      glucoseMapSlope * ymax + glucoseMapIntercept))
  else (cl, gl)

/-- The plotted per-date values of one series: same-date points are
averaged, dates in ascending order. -/
def dateAverages (data : DateMap) : List ℚ :=
  (sortedSet (data.map Prod.fst)).map fun d =>
    let pts := (alookup data d).getD []
    (pts.map (fun p => p.value)).sum / pts.length

/-- The cholesterol scatter values of `plot_measurements`: every nonempty
series whose upper-cased code contains `CHOLEST`, in mapping order. -/
def plottedChol (meas : MeasMap) : List ℚ :=
  ((meas.filter fun q => !q.2.isEmpty && pyInStr "CHOLEST" (pyUpper q.1)).map
    fun q => dateAverages q.2).flatten

/-- The glucose scatter values: every nonempty series whose code does not
contain `CHOLEST`. -/
def plottedGluc (meas : MeasMap) : List ℚ :=
  ((meas.filter fun q => !q.2.isEmpty && !pyInStr "CHOLEST" (pyUpper q.1)).map
    fun q => dateAverages q.2).flatten

/-- The modelled outcome of `plot_measurements`: the color assignment and
the two axis ranges (the fields of the figure the claims are about;
smoothing, unit labels and the x-window only affect drawing and do not feed
back into these). -/
structure PlotFig where
  colorMap : List (String × ℕ)
  ax1Lim : ℚ × ℚ
  ax2Lim : ℚ × ℚ
deriving DecidableEq

/-- Python truthiness of the `cholest_ref_values` argument: present and
nonempty. -/
def refTruthy (ref : Option (List (Int × List Int))) : Bool :=
  match ref with
  | none => false
  | some l => !l.isEmpty

/-- `plot_measurements` from `tools.py`, restricted to the modelled figure
fields.  The colormap is built first, so its division-by-zero failure aborts
the call. -/
def plot_measurements (meas : MeasMap) (med : MedMap)
    (ref : Option (List (Int × List Int))) : Except Unit PlotFig :=
  match create_combined_colormap meas med with
  | .error e => .error e
  | .ok cm =>
    let a := compute_axis_limits (plottedChol meas) (plottedGluc meas) (refTruthy ref)
    .ok ⟨cm, a.1, a.2⟩

/-- `generate_plot_uri` from `tools.py`: the explicit no-data signal
(`None`, modelled `.ok none`) exactly when every measurement list and every
medication list is empty; otherwise the rendered figure. -/
def generate_plot_uri (measurements : MeasMap) (medications : MedMap)
    (ref : Option (List (Int × List Int))) : Except Unit (Option PlotFig) :=
  if measurements.all (fun q => q.2.isEmpty) && medications.all (fun q => q.2.isEmpty) then
    .ok none
  else
    match plot_measurements measurements medications ref with
    | .error e => .error e
    | .ok f => .ok (some f)

/-- The disorder-specific fixed code set named by the spec. -/
def disorderCodeSet (disorder : String) : List String :=
  if pyLower disorder = "hyperlipidemia" then HYPERLIPIDEMIA_CODES
  else if pyLower disorder = "diabetes" then DIABETES_CODES
  else []

/-- Follows the spec's words (the §4.1 matching rule), for comparison with
`has_disorder`: a Condition of the patient qualifies if some coding's code
is in the disorder's fixed code set, OR the diagnosis free text contains the
disorder's name case-insensitively, OR some coding's display text does. -/
def specConditionQualifies (pid : Nat) (disorder : String) (r : Resource) : Bool :=
  match r with
  | .condition pref codings freeText _ =>
    pref = "Patient/" ++ toString pid &&
      (codings.any (fun c => (disorderCodeSet disorder).contains c.code) ||
       pyInStr (pyLower disorder) (pyLower (freeText.getD "")) ||
       codings.any (fun c => pyInStr (pyLower disorder) (pyLower c.display)))
  | _ => false

/-- The list stored under code `c` and exact date `d` in a measurement
mapping (empty when either key is absent). -/
def listAt (mm : MeasMap) (c : String) (d : Int) : List MeasPoint :=
  (alookup ((alookup mm c).getD []) d).getD []

/-- The resources on which the `get_measurements` loop body raises: an
Observation of the requested patient whose coding list is empty (the
`coding[0]` access), or whose first coding's display is in the active code
set and whose effective date-time is missing or unparseable. -/
def badObs (codes : List String) (pid : Nat) (r : Resource) : Bool :=
  match r with
  | .observation subj codings eff _ _ =>
    if subj = "Patient/" ++ toString pid then
      match codings.head? with
      | none => true
      | some c0 =>
        codes.contains c0.display &&
          (match eff with
           | none => true
           | some s => (fromisoformat s).isNone)
    else false
  | _ => false

/-- The point an Observation contributes to the list under code `c` and
date `d`: present exactly when the observation is the patient's, its first
coding displays `c`, its date parses to `d`, and its value is non-null. -/
def obsPoint (pid : Nat) (c : String) (d : Int) (r : Resource) : Option MeasPoint :=
  match r with
  | .observation subj codings eff v u =>
    if subj = "Patient/" ++ toString pid then
      match codings.head? with
      | none => none
      | some c0 =>
        if c0.display = c then
          match eff with
          | none => none
          | some s =>
            match fromisoformat s with
            | none => none
            | some d2 =>
              if d2 = d then
                match v with
                | none => none
                | some val => some ⟨val, u⟩
              else none
        else none
    else none
  | _ => none

/-- Whether a resource is a Patient resource carrying the given id (the
resources scanned for a birth date). -/
def isPatientWithId (pid : Nat) (r : Resource) : Bool :=
  match r with
  | .patient i _ => i = toString pid
  | _ => false

/-- Store with one matching observation whose effective date-time does not
parse, followed by a well-formed observation. -/
def exC1 : FhirData :=
  [[.observation "Patient/1" [⟨"c1", "Cholest SerPl-mCnc"⟩] (some "not-a-date") (some 180) "mg/dL",
    .observation "Patient/1" [⟨"c1", "Cholest SerPl-mCnc"⟩] (some "2010-01-01") (some 190) "mg/dL"]]

/-- Store whose only Patient resource carries the requested id but no birth
date field. -/
def exC3 : FhirData := [[.patient "1" none]]

/-- Store with a resolvable birth date (2000-01-05) and no observations. -/
def exRef : FhirData := [[.patient "1" (some "2000-01-05")]]

/-- Day number of 2000-01-05, the birth date in `exRef`. -/
def exRefBirth : Int := 10961

/-- Store holding one Condition that matches the spec's rule only through
its free text: no coding code is in the fixed set and no display text
contains the disorder name. -/
def exC5 : FhirData :=
  [[.condition "Patient/1" [⟨"X00", "other disorder"⟩] (some "Hyperlipidemia, mixed") "2010-01-01"]]

/-- Store with a non-Condition resource followed by a qualifying
Condition. -/
def exC5w : FhirData :=
  [[.other, .condition "Patient/1" [⟨"55822004", "x"⟩] none "2011-02-03"]]

/-- Store with two same-code, same-timestamp observations carrying distinct
values. -/
def exC6 : FhirData :=
  [[.observation "Patient/2" [⟨"c", "Cholest SerPl-mCnc"⟩] (some "2012-03-04") (some 180) "mg/dL",
    .observation "Patient/2" [⟨"c", "Cholest SerPl-mCnc"⟩] (some "2012-03-04") (some 200) "mg/dL"]]

/-- Measurement mapping with dates 2020-01-01 and 2020-06-01 only. -/
def exC7meas : MeasMap :=
  [("Cholest SerPl-mCnc",
    [(daysFromCivil 2020 1 1, [⟨180, "mg/dL"⟩]), (daysFromCivil 2020 6 1, [⟨190, "mg/dL"⟩])])]

/-- Medication mapping with every statin code present and empty. -/
def exMedEmpty : MedMap := HYPERLIP_MED_CODES.map fun c => (c, [])

/-- A single-code measurement mapping holding one data point. -/
def exC8meas : MeasMap := [("Cholest SerPl-mCnc", [(0, [⟨180, "mg/dL"⟩])])]

/-- Twenty-one distinct single-letter codes (data irrelevant to coloring). -/
def exC9meas : MeasMap :=
  ["a", "b", "c", "d", "e", "f", "g", "h", "i", "j", "k",
   "l", "m", "n", "o", "p", "q", "r", "s", "t", "u"].map fun c => (c, [])

/-! Helper lemmas about association lists and the extraction folds. -/

theorem alookup_upd_date (dm : DateMap) (d : Int) (p : MeasPoint) :
    alookup (dm.map fun q => if q.1 = d then (q.1, q.2 ++ [p]) else q) d =
      (alookup dm d).map (fun l => l ++ [p]) := by
  induction dm with
  | nil => rfl
  | cons q qs ih =>
    by_cases h : q.1 = d
    · simp [alookup, h, ih]
    · simp [alookup, h, ih]

theorem alookup_upd_date_ne (dm : DateMap) (d d2 : Int) (p : MeasPoint) (h : d2 ≠ d) :
    alookup (dm.map fun q => if q.1 = d then (q.1, q.2 ++ [p]) else q) d2 = alookup dm d2 := by
  have h3 : ¬ (d = d2) := fun hh => h (Eq.symm hh)
  induction dm with
  | nil => rfl
  | cons q qs ih =>
    by_cases h1 : q.1 = d
    · simp [alookup, h1, h3, ih]
    · by_cases h2 : q.1 = d2
      · simp [alookup, h1, h2, h]
      · simp [alookup, h1, h2, ih]

theorem alookup_upd_code (mm : MeasMap) (c : String) (d : Int) (p : MeasPoint) :
    alookup (mm.map fun q => if q.1 = c then (q.1, appendAtDate q.2 d p) else q) c =
      (alookup mm c).map (fun dm => appendAtDate dm d p) := by
  induction mm with
  | nil => rfl
  | cons q qs ih =>
    by_cases h : q.1 = c
    · simp [alookup, h, ih]
    · simp [alookup, h, ih]

theorem alookup_upd_code_ne (mm : MeasMap) (c c2 : String) (d : Int) (p : MeasPoint)
    (h : c2 ≠ c) :
    alookup (mm.map fun q => if q.1 = c then (q.1, appendAtDate q.2 d p) else q) c2 =
      alookup mm c2 := by
  have h3 : ¬ (c = c2) := fun hh => h (Eq.symm hh)
  induction mm with
  | nil => rfl
  | cons q qs ih =>
    by_cases h1 : q.1 = c
    · simp [alookup, h1, h3, ih]
    · by_cases h2 : q.1 = c2
      · simp [alookup, h1, h2, h]
      · simp [alookup, h1, h2, ih]

theorem alookup_upd_med (acc : MedMap) (c : String) (rec : MedRec) :
    alookup (acc.map fun q => if q.1 = c then (q.1, q.2 ++ [rec]) else q) c =
      (alookup acc c).map (fun l => l ++ [rec]) := by
  induction acc with
  | nil => rfl
  | cons q qs ih =>
    by_cases h : q.1 = c
    · simp [alookup, h, ih]
    · simp [alookup, h, ih]

theorem alookup_append {α β : Type} [DecidableEq α] (l1 l2 : List (α × β)) (a : α) :
    alookup (l1 ++ l2) a =
      match alookup l1 a with
      | some v => some v
      | none => alookup l2 a := by
  induction l1 with
  | nil => rfl
  | cons q qs ih =>
    by_cases h : q.1 = a
    · simp [alookup, h]
    · simp [alookup, h, ih]

theorem alookup_isSome_any {α β : Type} [DecidableEq α] (l : List (α × β)) (a : α) :
    (alookup l a).isSome = l.any (fun q => q.1 = a) := by
  induction l with
  | nil => rfl
  | cons q qs ih =>
    by_cases h : q.1 = a
    · simp [alookup, h]
    · simp [alookup, h, ih]

theorem mem_keys_alookup {α β : Type} [DecidableEq α] (l : List (α × β)) (a : α)
    (h : a ∈ l.map Prod.fst) : (alookup l a).isSome := by
  induction l with
  | nil => simp at h
  | cons q qs ih =>
    rcases List.mem_cons.mp h with h1 | h1
    · simp [alookup, h1.symm]
    · by_cases h2 : q.1 = a
      · simp [alookup, h2]
      · simpa [alookup, h2] using ih h1

theorem appendAtDate_self (dm : DateMap) (d : Int) (p : MeasPoint) :
    alookup (appendAtDate dm d p) d = some ((alookup dm d).getD [] ++ [p]) := by
  unfold appendAtDate
  by_cases h : dm.any (fun q => q.1 = d)
  · rw [if_pos h, alookup_upd_date]
    have hs : (alookup dm d).isSome := by rw [alookup_isSome_any, h]
    rcases Option.isSome_iff_exists.mp hs with ⟨v, hv⟩
    rw [hv]; rfl
  · rw [if_neg h, alookup_append]
    have hn : alookup dm d = none := by
      cases hx : alookup dm d with
      | none => rfl
      | some v =>
        exfalso
        apply h
        rw [← alookup_isSome_any, hx]
        rfl
    rw [hn]
    simp [alookup]

theorem appendAtDate_ne (dm : DateMap) (d d2 : Int) (p : MeasPoint) (h : d2 ≠ d) :
    alookup (appendAtDate dm d p) d2 = alookup dm d2 := by
  unfold appendAtDate
  by_cases hany : dm.any (fun q => q.1 = d)
  · rw [if_pos hany, alookup_upd_date_ne _ _ _ _ h]
  · rw [if_neg hany, alookup_append]
    have h3 : ¬ (d = d2) := fun hh => h (Eq.symm hh)
    cases hx : alookup dm d2 with
    | some v => rfl
    | none => simp [alookup, h3]

theorem appendAtCode_keys (mm : MeasMap) (c : String) (d : Int) (p : MeasPoint) :
    (appendAtCode mm c d p).map Prod.fst = mm.map Prod.fst := by
  unfold appendAtCode
  induction mm with
  | nil => rfl
  | cons q qs ih =>
    by_cases h : q.1 = c
    · simpa [h] using ih
    · simpa [h] using ih

theorem appendAtCode_listAt_self (mm : MeasMap) (c : String) (d : Int) (p : MeasPoint)
    (hk : (alookup mm c).isSome) :
    listAt (appendAtCode mm c d p) c d = listAt mm c d ++ [p] := by
  unfold listAt appendAtCode
  rw [alookup_upd_code]
  rcases Option.isSome_iff_exists.mp hk with ⟨dm, hdm⟩
  rw [hdm]
  simp only [Option.map_some', Option.getD_some]
  rw [appendAtDate_self]
  simp

theorem appendAtCode_listAt_dne (mm : MeasMap) (c : String) (d d2 : Int) (p : MeasPoint)
    (h : d2 ≠ d) :
    listAt (appendAtCode mm c d p) c d2 = listAt mm c d2 := by
  unfold listAt appendAtCode
  rw [alookup_upd_code]
  cases hdm : alookup mm c with
  | none => rfl
  | some dm =>
    simp only [Option.map_some', Option.getD_some]
    rw [appendAtDate_ne _ _ _ _ h]

theorem appendAtCode_listAt_cne (mm : MeasMap) (c c2 : String) (d d2 : Int) (p : MeasPoint)
    (h : c2 ≠ c) :
    listAt (appendAtCode mm c d p) c2 d2 = listAt mm c2 d2 := by
  unfold listAt appendAtCode
  rw [alookup_upd_code_ne _ _ _ _ _ h]

theorem alookup_isSome_mem {α β : Type} [DecidableEq α] (l : List (α × β)) (a : α)
    (h : (alookup l a).isSome) : a ∈ l.map Prod.fst := by
  induction l with
  | nil => simp [alookup] at h
  | cons q qs ih =>
    by_cases hq : q.1 = a
    · simp [hq]
    · rw [alookup, if_neg hq] at h
      simpa using Or.inr (ih h)

theorem stepMeas_error_iff (codes : List String) (pid : Nat) (mm : MeasMap) (r : Resource) :
    stepMeas codes pid mm r = .error () ↔ badObs codes pid r = true := by
  cases r with
  | observation subj codings eff v u =>
    simp only [stepMeas, badObs]
    by_cases h1 : subj = "Patient/" ++ toString pid
    · rw [if_pos h1, if_pos h1]
      cases codings.head? with
      | none => simp
      | some c0 =>
        by_cases h2 : c0.display ∈ codes
        · cases eff with
          | none => simp [h2]
          | some s =>
            cases hs : fromisoformat s with
            | none => simp [h2, hs]
            | some d =>
              cases v with
              | none => simp [h2, hs]
              | some val => simp [h2, hs]
        · simp [h2]
    · rw [if_neg h1, if_neg h1]
      simp
  | patient i bd => simp [stepMeas, badObs]
  | condition a b c d => simp [stepMeas, badObs]
  | medicationOrder a b c => simp [stepMeas, badObs]
  | other => simp [stepMeas, badObs]

theorem stepMeas_ok_of_not_bad (codes : List String) (pid : Nat) (mm : MeasMap) (r : Resource)
    (h : badObs codes pid r = false) : ∃ mm2, stepMeas codes pid mm r = .ok mm2 := by
  cases he : stepMeas codes pid mm r with
  | ok mm2 => exact ⟨mm2, rfl⟩
  | error e =>
    exfalso
    cases e
    rw [(stepMeas_error_iff codes pid mm r).mp he] at h
    exact Bool.true_eq_false.mp h

theorem stepMeas_keys (codes : List String) (pid : Nat) (mm mm2 : MeasMap) (r : Resource)
    (h : stepMeas codes pid mm r = .ok mm2) : mm2.map Prod.fst = mm.map Prod.fst := by
  cases r with
  | observation subj codings eff v u =>
    simp only [stepMeas] at h
    by_cases h1 : subj = "Patient/" ++ toString pid
    · rw [if_pos h1] at h
      revert h
      cases codings.head? with
      | none => intro h; simp at h
      | some c0 =>
        dsimp only
        by_cases h2 : codes.contains c0.display
        · rw [if_pos h2]
          cases eff with
          | none => intro h; simp at h
          | some s =>
            dsimp only
            cases fromisoformat s with
            | none => intro h; simp at h
            | some d =>
              dsimp only
              cases v with
              | none => intro h; cases h; rfl
              | some val => intro h; cases h; exact appendAtCode_keys mm c0.display d ⟨val, u⟩
        · rw [if_neg h2]; intro h; cases h; rfl
    · rw [if_neg h1] at h; cases h; rfl
  | patient i bd => cases h; rfl
  | condition a b c d => cases h; rfl
  | medicationOrder a b c => cases h; rfl
  | other => cases h; rfl

theorem stepMeas_listAt (codes : List String) (pid : Nat) (c : String) (d : Int)
    (mm mm2 : MeasMap) (r : Resource) (h : stepMeas codes pid mm r = .ok mm2)
    (hc : c ∈ codes) (hk : (alookup mm c).isSome) :
    listAt mm2 c d = listAt mm c d ++ (obsPoint pid c d r).toList := by
  cases r with
  | observation subj codings eff v u =>
    simp only [stepMeas] at h
    simp only [obsPoint]
    by_cases h1 : subj = "Patient/" ++ toString pid
    · rw [if_pos h1] at h
      rw [if_pos h1]
      revert h
      cases codings.head? with
      | none => intro h; simp at h
      | some c0 =>
        dsimp only
        by_cases hdisp : c0.display = c
        · have h2 : codes.contains c0.display = true := by
            rw [hdisp]
            simpa using hc
          rw [if_pos h2, if_pos hdisp]
          cases eff with
          | none => intro h; simp at h
          | some s =>
            dsimp only
            cases fromisoformat s with
            | none => intro h; simp at h
            | some d2 =>
              dsimp only
              cases v with
              | none =>
                intro h
                cases h
                simp
              | some val =>
                intro h
                cases h
                by_cases hd : d2 = d
                · subst hd
                  rw [if_pos rfl]
                  rw [hdisp] at *
                  simpa using appendAtCode_listAt_self mm c d2 ⟨val, u⟩ hk
                · rw [if_neg hd]
                  rw [hdisp] at *
                  simpa using appendAtCode_listAt_dne mm c d2 d ⟨val, u⟩
                    (fun hh => hd (Eq.symm hh))
        · rw [if_neg hdisp]
          by_cases h2 : codes.contains c0.display
          · rw [if_pos h2]
            cases eff with
            | none => intro h; simp at h
            | some s =>
              dsimp only
              cases fromisoformat s with
              | none => intro h; simp at h
              | some d2 =>
                dsimp only
                cases v with
                | none => intro h; cases h; simp
                | some val =>
                  intro h
                  cases h
                  simpa using appendAtCode_listAt_cne mm c0.display c d2 d ⟨val, u⟩
                    (fun hh => hdisp (Eq.symm hh))
          · rw [if_neg h2]; intro h; cases h; simp
    · rw [if_neg h1] at h; cases h; simp [h1]
  | patient i bd => cases h; simp [obsPoint]
  | condition a b c2 d2 => cases h; simp [obsPoint]
  | medicationOrder a b c2 => cases h; simp [obsPoint]
  | other => cases h; simp [obsPoint]

theorem pyFold_meas_error_iff (codes : List String) (pid : Nat) :
    ∀ (l : List Resource) (mm : MeasMap),
      (pyFold (stepMeas codes pid) mm l = .error () ↔ ∃ r ∈ l, badObs codes pid r = true) := by
  intro l
  induction l with
  | nil => intro mm; simp [pyFold]
  | cons r rs ih =>
    intro mm
    unfold pyFold
    cases hstep : stepMeas codes pid mm r with
    | error e =>
      cases e
      constructor
      · intro _
        exact ⟨r, List.mem_cons_self r rs, (stepMeas_error_iff codes pid mm r).mp hstep⟩
      · intro _
        rfl
    | ok mm2 =>
      have hbad : badObs codes pid r = false := by
        cases hb : badObs codes pid r with
        | false => rfl
        | true =>
          exfalso
          rw [← stepMeas_error_iff codes pid mm r] at hb
          rw [hstep] at hb
          exact Except.noConfusion hb
      rw [ih mm2]
      simp [hbad]

theorem pyFold_meas_keys (codes : List String) (pid : Nat) :
    ∀ (l : List Resource) (mm mm2 : MeasMap),
      pyFold (stepMeas codes pid) mm l = .ok mm2 → mm2.map Prod.fst = mm.map Prod.fst := by
  intro l
  induction l with
  | nil => intro mm mm2 h; cases h; rfl
  | cons r rs ih =>
    intro mm mm2 h
    unfold pyFold at h
    cases hstep : stepMeas codes pid mm r with
    | error e => rw [hstep] at h; exact Except.noConfusion h
    | ok mm1 =>
      rw [hstep] at h
      rw [ih mm1 mm2 h, stepMeas_keys codes pid mm mm1 r hstep]

theorem pyFold_meas_listAt (codes : List String) (pid : Nat) (c : String) (d : Int)
    (hc : c ∈ codes) :
    ∀ (l : List Resource) (mm mm2 : MeasMap),
      pyFold (stepMeas codes pid) mm l = .ok mm2 → (alookup mm c).isSome →
      listAt mm2 c d = listAt mm c d ++ l.filterMap (obsPoint pid c d) := by
  intro l
  induction l with
  | nil => intro mm mm2 h _; cases h; simp
  | cons r rs ih =>
    intro mm mm2 h hk
    unfold pyFold at h
    cases hstep : stepMeas codes pid mm r with
    | error e => rw [hstep] at h; exact Except.noConfusion h
    | ok mm1 =>
      rw [hstep] at h
      have hk1 : (alookup mm1 c).isSome := by
        apply mem_keys_alookup
        rw [stepMeas_keys codes pid mm mm1 r hstep]
        exact alookup_isSome_mem mm c hk
      rw [ih mm1 mm2 h hk1, stepMeas_listAt codes pid c d mm mm1 r hstep hc hk]
      cases hop : obsPoint pid c d r with
      | none => simp [List.filterMap_cons, hop]
      | some p => simp [List.filterMap_cons, hop]

theorem upd_med_keys (acc : MedMap) (c : String) (rec : MedRec) :
    (acc.map fun q => if q.1 = c then (q.1, q.2 ++ [rec]) else q).map Prod.fst =
      acc.map Prod.fst := by
  induction acc with
  | nil => rfl
  | cons q qs ih =>
    by_cases h : q.1 = c
    · simpa [h] using ih
    · simpa [h] using ih

theorem stepMed_keys (codes : List String) (pid : Nat) (acc acc2 : MedMap) (r : Resource)
    (h : stepMed codes pid acc r = .ok acc2) : acc2.map Prod.fst = acc.map Prod.fst := by
  cases r with
  | medicationOrder pref codings instr =>
    simp only [stepMed] at h
    by_cases h1 : pref = "Patient/" ++ toString pid
    · rw [if_pos h1] at h
      revert h
      cases codings.head? with
      | none => intro h; simp at h
      | some c0 =>
        dsimp only
        by_cases h2 : codes.contains c0.code
        · rw [if_pos h2]
          cases dosageDate instr with
          | error e => intro h; simp at h
          | ok dt =>
            dsimp only
            intro h
            cases h
            exact upd_med_keys acc c0.code ⟨dt, c0.display, dosageText instr⟩
        · rw [if_neg h2]; intro h; cases h; rfl
    · rw [if_neg h1] at h; cases h; rfl
  | patient i bd => cases h; rfl
  | condition a b c d => cases h; rfl
  | observation a b c d e => cases h; rfl
  | other => cases h; rfl

theorem pyFold_med_keys (codes : List String) (pid : Nat) :
    ∀ (l : List Resource) (acc acc2 : MedMap),
      pyFold (stepMed codes pid) acc l = .ok acc2 → acc2.map Prod.fst = acc.map Prod.fst := by
  intro l
  induction l with
  | nil => intro acc acc2 h; cases h; rfl
  | cons r rs ih =>
    intro acc acc2 h
    unfold pyFold at h
    cases hstep : stepMed codes pid acc r with
    | error e => rw [hstep] at h; exact Except.noConfusion h
    | ok acc1 =>
      rw [hstep] at h
      rw [ih acc1 acc2 h, stepMed_keys codes pid acc acc1 r hstep]

theorem pyFold_birth_none (pid : Nat) :
    ∀ (l : List Resource) (acc : Option Int),
      (∀ r ∈ l, isPatientWithId pid r = false) →
      pyFold (stepBirth pid) acc l = .ok acc := by
  intro l
  induction l with
  | nil => intro acc _; rfl
  | cons r rs ih =>
    intro acc hall
    have hr : isPatientWithId pid r = false := hall r (List.mem_cons_self r rs)
    have hstep : stepBirth pid acc r = .ok acc := by
      cases r with
      | patient i bd =>
        simp only [isPatientWithId] at hr
        simp only [stepBirth]
        rw [if_neg (by simpa using hr)]
      | condition a b c d => rfl
      | observation a b c d e => rfl
      | medicationOrder a b c => rfl
      | other => rfl
    unfold pyFold
    rw [hstep]
    exact ih acc (fun r2 h2 => hall r2 (List.mem_cons_of_mem r h2))

theorem insSorted_mem (x y : Int) (l : List Int) :
    y ∈ insSorted x l ↔ y = x ∨ y ∈ l := by
  induction l with
  | nil => simp [insSorted]
  | cons z zs ih =>
    unfold insSorted
    by_cases h1 : x < z
    · rw [if_pos h1]; exact List.mem_cons
    · rw [if_neg h1]
      by_cases h2 : x = z
      · rw [if_pos h2]
        subst h2
        constructor
        · exact fun hh => Or.inr hh
        · rintro (rfl | hh)
          · exact List.mem_cons_self _ _
          · exact hh
      · rw [if_neg h2]
        simp only [List.mem_cons, ih]
        tauto

theorem insSorted_pairwise (x : Int) (l : List Int) (h : l.Pairwise (· < ·)) :
    (insSorted x l).Pairwise (· < ·) := by
  induction l with
  | nil => simp [insSorted]
  | cons z zs ih =>
    rcases List.pairwise_cons.mp h with ⟨hz, hzs⟩
    unfold insSorted
    by_cases h1 : x < z
    · rw [if_pos h1]
      exact List.pairwise_cons.mpr ⟨by
        intro b hb
        rcases List.mem_cons.mp hb with hb | hb
        · exact hb ▸ h1
        · exact lt_trans h1 (hz b hb), h⟩
    · rw [if_neg h1]
      by_cases h2 : x = z
      · rw [if_pos h2]; exact h
      · rw [if_neg h2]
        have hzx : z < x := lt_of_le_of_ne (not_lt.mp h1) (fun hh => h2 hh.symm)
        refine List.pairwise_cons.mpr ⟨?_, ih hzs⟩
        intro b hb
        rcases (insSorted_mem x b zs).mp hb with hb | hb
        · exact hb ▸ hzx
        · exact hz b hb

theorem sortedSet_pairwise (l : List Int) : (sortedSet l).Pairwise (· < ·) := by
  induction l with
  | nil => simp [sortedSet]
  | cons x xs ih => exact insSorted_pairwise x (sortedSet xs) ih

theorem sortedSet_mem (l : List Int) (y : Int) : y ∈ sortedSet l ↔ y ∈ l := by
  induction l with
  | nil => simp [sortedSet]
  | cons x xs ih =>
    show y ∈ insSorted x (sortedSet xs) ↔ _
    rw [insSorted_mem]
    simp [ih]

theorem foldl_min_le_init {α : Type} [LinearOrder α] (l : List α) (a : α) :
    l.foldl min a ≤ a := by
  induction l generalizing a with
  | nil => exact le_refl a
  | cons x xs ih => exact le_trans (ih (min a x)) (min_le_left a x)

theorem foldl_min_le_mem {α : Type} [LinearOrder α] (l : List α) (a x : α) (h : x ∈ l) :
    l.foldl min a ≤ x := by
  induction l generalizing a with
  | nil => simp at h
  | cons z zs ih =>
    rcases List.mem_cons.mp h with h1 | h1
    · subst h1
      exact le_trans (foldl_min_le_init zs (min a x)) (min_le_right a x)
    · exact ih (min a z) h1

theorem foldl_min_mem {α : Type} [LinearOrder α] (l : List α) (a : α) :
    l.foldl min a = a ∨ l.foldl min a ∈ l := by
  induction l generalizing a with
  | nil => exact Or.inl rfl
  | cons x xs ih =>
    rcases ih (min a x) with h | h
    · rcases min_choice a x with h2 | h2
      · exact Or.inl (by rw [List.foldl_cons, h, h2])
      · exact Or.inr (by rw [List.foldl_cons, h, h2]; exact List.mem_cons_self x xs)
    · exact Or.inr (List.mem_cons_of_mem x h)

theorem foldl_max_init_le {α : Type} [LinearOrder α] (l : List α) (a : α) :
    a ≤ l.foldl max a := by
  induction l generalizing a with
  | nil => exact le_refl a
  | cons x xs ih => exact le_trans (le_max_left a x) (ih (max a x))

theorem foldl_max_mem_le {α : Type} [LinearOrder α] (l : List α) (a x : α) (h : x ∈ l) :
    x ≤ l.foldl max a := by
  induction l generalizing a with
  | nil => simp at h
  | cons z zs ih =>
    rcases List.mem_cons.mp h with h1 | h1
    · subst h1
      exact le_trans (le_max_right a x) (foldl_max_init_le zs (max a x))
    · exact ih (max a z) h1

theorem foldl_max_mem {α : Type} [LinearOrder α] (l : List α) (a : α) :
    l.foldl max a = a ∨ l.foldl max a ∈ l := by
  induction l generalizing a with
  | nil => exact Or.inl rfl
  | cons x xs ih =>
    rcases ih (max a x) with h | h
    · rcases max_choice a x with h2 | h2
      · exact Or.inl (by rw [List.foldl_cons, h, h2])
      · exact Or.inr (by rw [List.foldl_cons, h, h2]; exact List.mem_cons_self x xs)
    · exact Or.inr (List.mem_cons_of_mem x h)

theorem pyMin_mem {α : Type} [LinearOrder α] [Inhabited α] (l : List α) (h : l ≠ []) :
    pyMin l ∈ l := by
  cases l with
  | nil => exact absurd rfl h
  | cons x xs =>
    rcases foldl_min_mem xs x with h1 | h1
    · rw [pyMin, h1]; exact List.mem_cons_self x xs
    · exact List.mem_cons_of_mem x (by rw [pyMin]; exact h1)

theorem pyMin_le {α : Type} [LinearOrder α] [Inhabited α] (l : List α) (x : α) (h : x ∈ l) :
    pyMin l ≤ x := by
  cases l with
  | nil => simp at h
  | cons z zs =>
    rcases List.mem_cons.mp h with h1 | h1
    · subst h1; exact foldl_min_le_init zs x
    · exact foldl_min_le_mem zs z x h1

theorem pyMax_mem {α : Type} [LinearOrder α] [Inhabited α] (l : List α) (h : l ≠ []) :
    pyMax l ∈ l := by
  cases l with
  | nil => exact absurd rfl h
  | cons x xs =>
    rcases foldl_max_mem xs x with h1 | h1
    · rw [pyMax, h1]; exact List.mem_cons_self x xs
    · exact List.mem_cons_of_mem x (by rw [pyMax]; exact h1)

theorem pyMax_ge {α : Type} [LinearOrder α] [Inhabited α] (l : List α) (x : α) (h : x ∈ l) :
    x ≤ pyMax l := by
  cases l with
  | nil => simp at h
  | cons z zs =>
    rcases List.mem_cons.mp h with h1 | h1
    · subst h1; exact foldl_max_init_le zs x
    · exact foldl_max_mem_le zs z x h1

theorem map_const_keys {α β : Type} (codes : List α) (f : α → β) :
    ((codes.map fun c => (c, f c)).map Prod.fst) = codes := by
  induction codes with
  | nil => rfl
  | cons c cs ih => simpa using ih

theorem init_listAt (codes : List String) (c : String) (d : Int) :
    listAt (codes.map fun c2 => (c2, [])) c d = [] := by
  induction codes with
  | nil => rfl
  | cons c2 cs ih =>
    unfold listAt
    by_cases h : c2 = c
    · simp [alookup, h]
    · simpa [alookup, h] using ih

theorem firstQualifying_isSome_iff (pid : Nat) (disorder : String) (l : List Resource) :
    (firstQualifying pid disorder l).isSome ↔
      ∃ r ∈ l, (conditionQualifies pid disorder r).isSome := by
  induction l with
  | nil => simp [firstQualifying]
  | cons r rs ih =>
    unfold firstQualifying
    cases hq : conditionQualifies pid disorder r with
    | some onset =>
      simp only [Option.isSome_some, true_iff]
      exact ⟨r, List.mem_cons_self r rs, by rw [hq]; rfl⟩
    | none =>
      rw [ih]
      constructor
      · rintro ⟨r2, hr2, hq2⟩
        exact ⟨r2, List.mem_cons_of_mem r hr2, hq2⟩
      · rintro ⟨r2, hr2, hq2⟩
        rcases List.mem_cons.mp hr2 with h1 | h1
        · subst h1; rw [hq] at hq2; simp at hq2
        · exact ⟨r2, h1, hq2⟩

theorem firstQualifying_first (pid : Nat) (disorder : String) :
    ∀ (l1 : List Resource) (r : Resource) (l2 : List Resource),
      (∀ r2 ∈ l1, conditionQualifies pid disorder r2 = none) →
      ∀ onset, conditionQualifies pid disorder r = some onset →
      firstQualifying pid disorder (l1 ++ r :: l2) = some onset := by
  intro l1
  induction l1 with
  | nil =>
    intro r l2 _ onset hq
    rw [List.nil_append]
    unfold firstQualifying
    rw [hq]
  | cons r2 rs ih =>
    intro r l2 hall onset hq
    have h2 : conditionQualifies pid disorder r2 = none :=
      hall r2 (List.mem_cons_self r2 rs)
    show firstQualifying pid disorder (r2 :: (rs ++ r :: l2)) = some onset
    unfold firstQualifying
    rw [h2]
    exact ih r l2 (fun r3 h3 => hall r3 (List.mem_cons_of_mem r2 h3)) onset hq

/-! The claim theorems. -/

/-- Claim C1, counterexample.  The claim says an unparseable effective
date-time is recovered softly and the call never raises; on this store the
single matching observation has an unparseable date and `get_measurements`
raises (models the uncaught `ValueError` of `datetime.fromisoformat` at
`logic.py` line 147), aborting extraction of the following well-formed
observation. -/
theorem C1_counterexample : get_measurements exC1 1 "cholesterol" = .error () := by decide

/-- Claim C1, amended.  `get_measurements` raises exactly when some
observation of the patient either has an empty coding list, or matches the
active code set and has a missing or unparseable effective date-time; a
malformed date is not skipped, it aborts the whole extraction. -/
theorem C1_theorem (fhir : FhirData) (pid : Nat) (lab : String) :
    get_measurements fhir pid lab = .error () ↔
      ∃ r ∈ fhir.flatten, badObs (measurementCodes lab) pid r = true := by
  unfold get_measurements
  exact pyFold_meas_error_iff (measurementCodes lab) pid fhir.flatten _

/-- Claim C5, counterexample.  A Condition whose free text contains
`hyperlipidemia` but whose codings match neither by code nor by display is
counted as qualifying by the spec's rule, yet `has_disorder` reports the
disorder absent: the code never consults the free text. -/
theorem C5_counterexample :
    ¬ (((has_disorder exC5 1 "hyperlipidemia").1 = true) ↔
        ∃ r ∈ exC5.flatten, specConditionQualifies 1 "hyperlipidemia" r = true) := by
  decide

/-- Claim C5, amended.  `has_disorder` reports the disorder present exactly
when some Condition of the patient has a coding whose code is in the fixed
code set or whose display text contains the disorder's name
case-insensitively — the free text is not consulted; the first qualifying
Condition in traversal order wins and its onset date is returned. -/
theorem C5_theorem (fhir : FhirData) (pid : Nat) (disorder : String) :
    ((has_disorder fhir pid disorder).1 = true ↔
      ∃ r ∈ fhir.flatten, (conditionQualifies pid disorder r).isSome) ∧
    (∀ (l1 : List Resource) (r : Resource) (l2 : List Resource),
      fhir.flatten = l1 ++ r :: l2 →
      (∀ r2 ∈ l1, conditionQualifies pid disorder r2 = none) →
      ∀ onset, conditionQualifies pid disorder r = some onset →
      has_disorder fhir pid disorder = (true, some onset)) := by
  constructor
  · unfold has_disorder
    rw [← firstQualifying_isSome_iff]
    cases firstQualifying pid disorder fhir.flatten with
    | some onset => simp
    | none => simp
  · intro l1 r l2 hsplit hall onset hq
    unfold has_disorder
    rw [hsplit, firstQualifying_first pid disorder l1 r l2 hall onset hq]

/-- Claim C5, witness: on `exC5w` the non-Condition head does not qualify,
the second resource qualifies by code, and its onset is returned. -/
theorem C5_witness : has_disorder exC5w 1 "hyperlipidemia" = (true, some "2011-02-03") := by
  have h := (C5_theorem exC5w 1 "hyperlipidemia").2 [Resource.other]
    (Resource.condition "Patient/1" [⟨"55822004", "x"⟩] none "2011-02-03") []
  exact h (by decide) (by decide) "2011-02-03" (by decide)

/-- Claim C6.  On a successful extraction the output's keys are exactly the
active category's codes (every code present even with empty data), and the
list stored under code `c` and exact date `d` is precisely the points of
the matching observations in traversal order — two same-code,
same-timestamp observations with distinct values both appear. -/
theorem C6_theorem (fhir : FhirData) (pid : Nat) (lab : String) (mm : MeasMap)
    (h : get_measurements fhir pid lab = .ok mm) :
    mm.map Prod.fst = measurementCodes lab ∧
    ∀ c ∈ measurementCodes lab, ∀ d : Int,
      listAt mm c d = fhir.flatten.filterMap (obsPoint pid c d) := by
  unfold get_measurements at h
  have hkeys : mm.map Prod.fst = measurementCodes lab := by
    rw [pyFold_meas_keys (measurementCodes lab) pid fhir.flatten _ mm h]
    exact map_const_keys (measurementCodes lab) (fun _ => ([] : DateMap))
  refine ⟨hkeys, ?_⟩
  intro c hc d
  have hk : (alookup ((measurementCodes lab).map fun c2 => (c2, ([] : DateMap))) c).isSome := by
    apply mem_keys_alookup
    rw [map_const_keys (measurementCodes lab) (fun _ => ([] : DateMap))]
    exact hc
  rw [pyFold_meas_listAt (measurementCodes lab) pid c d hc fhir.flatten _ mm h hk,
    init_listAt]
  rfl

/-- The extraction result on `exC6`. -/
def exC6mm : MeasMap :=
  [("Cholest SerPl-mCnc",
    [(daysFromCivil 2012 3 4, [⟨180, "mg/dL"⟩, ⟨200, "mg/dL"⟩])])]

/-- Claim C6, witness: both same-timestamp points with distinct values 180
and 200 appear in the stored list. -/
theorem C6_witness :
    exC6mm.map Prod.fst = measurementCodes "cholesterol" ∧
    listAt exC6mm "Cholest SerPl-mCnc" (daysFromCivil 2012 3 4) =
      exC6.flatten.filterMap (obsPoint 2 "Cholest SerPl-mCnc" (daysFromCivil 2012 3 4)) ∧
    listAt exC6mm "Cholest SerPl-mCnc" (daysFromCivil 2012 3 4) =
      [⟨180, "mg/dL"⟩, ⟨200, "mg/dL"⟩] := by
  have h := C6_theorem exC6 2 "cholesterol" exC6mm (by decide)
  exact ⟨h.1, h.2 "Cholest SerPl-mCnc" (by decide) (daysFromCivil 2012 3 4), by decide⟩

/-- Claim C10.  Requesting medications for `diabetes` runs the very same
extraction as for `hyperlipidemia`; a successful result's keys are exactly
the six statin RxNorm codes; any other disorder name yields the empty
mapping with no keys at all. -/
theorem C10_theorem (fhir : FhirData) (pid : Nat) :
    get_medications fhir pid "diabetes" = get_medications fhir pid "hyperlipidemia" ∧
    (∀ m : MedMap, get_medications fhir pid "diabetes" = .ok m →
      m.map Prod.fst = HYPERLIP_MED_CODES) ∧
    (∀ (d : String) (m : MedMap), pyLower d ≠ "hyperlipidemia" → pyLower d ≠ "diabetes" →
      get_medications fhir pid d = .ok m → m = []) := by
  refine ⟨?_, ?_, ?_⟩
  · have hc : medicationCodes "diabetes" = medicationCodes "hyperlipidemia" := by decide
    unfold get_medications
    rw [hc]
  · intro m h
    unfold get_medications at h
    rw [pyFold_med_keys (medicationCodes "diabetes") pid fhir.flatten _ m h,
      map_const_keys (medicationCodes "diabetes") (fun _ => [])]
    decide
  · intro d m h1 h2 h
    unfold get_medications at h
    have hc : medicationCodes d = [] := by
      unfold medicationCodes
      rw [if_neg h1, if_neg h2]
    rw [hc] at h
    have hkeys := pyFold_med_keys [] pid fhir.flatten _ m h
    have hnil : m.map Prod.fst = [] := by simpa using hkeys
    cases m with
    | nil => rfl
    | cons q qs => simp at hnil

/-- Claim C10, witness: the diabetes call equals the hyperlipidemia call,
its keys on the empty store are the six statin codes, and the disorder name
`foo` yields the empty mapping. -/
theorem C10_witness :
    get_medications [] 5 "diabetes" = get_medications [] 5 "hyperlipidemia" ∧
    exMedEmpty.map Prod.fst = HYPERLIP_MED_CODES ∧
    ∀ m : MedMap, get_medications [] 5 "foo" = .ok m → m = [] := by
  have h := C10_theorem [] 5
  exact ⟨h.1, h.2.1 exMedEmpty (by decide),
    fun m hm => h.2.2 "foo" m (by decide) (by decide) hm⟩

theorem ageBand_decide (b d : Int) :
    ageBand b d = if d - b < 7300 then [170, 199] else [199, 239] := by
  unfold ageBand
  have hiff : (((d - b : Int) : ℚ) / 365 < 20) ↔ ((d - b : Int) < 7300) := by
    rw [div_lt_iff₀ (by norm_num : (0:ℚ) < 365)]
    constructor
    · intro hh
      exact_mod_cast (by linarith : ((d - b : Int) : ℚ) < 7300)
    · intro hh
      have : ((d - b : Int) : ℚ) < 7300 := by exact_mod_cast hh
      linarith
  by_cases h : (d - b : Int) < 7300
  · rw [if_pos (hiff.mpr h), if_pos h]
  · rw [if_neg (fun hh => h (hiff.mp hh)), if_neg h]

theorem cholref_none (fhir : FhirData) (pid : Nat) (today : Int)
    (h : ∀ r ∈ fhir.flatten, isPatientWithId pid r = false) :
    cholest_reference_values fhir pid today = .ok none := by
  have hb : findBirthDate fhir pid = .ok none :=
    pyFold_birth_none pid fhir.flatten none h
  simp only [cholest_reference_values, hb]

theorem cholref_eval (fhir : FhirData) (pid : Nat) (today b : Int) (mm : MeasMap)
    (h1 : findBirthDate fhir pid = .ok (some b))
    (h2 : get_measurements fhir pid "Cholesterol" = .ok mm) :
    cholest_reference_values fhir pid today =
      .ok (some ((sortedSet ([b] ++ [b + 20 * 365] ++ cholMeasDates mm ++ [today])).map
        fun d => (d, ageBand b d))) := by
  simp only [cholest_reference_values, h1, h2]

/-- Claim C3, counterexample.  The claim says an unresolvable birth date
yields the explicit absence signal; here the Patient resource with the
requested id is present but carries no birth date, and the call raises (the
uncaught `KeyError` on `resource["birthDate"]`) instead of returning the
absence signal. -/
theorem C3_counterexample :
    cholest_reference_values exC3 1 0 = .error () ∧
    cholest_reference_values exC3 1 0 ≠ .ok none := by
  constructor
  · decide
  · decide

/-- Claim C3, amended.  Each sampled date is mapped to `[170, 199]` when
`(date - birthDate) / 365` is strictly below 20 and to `[199, 239]`
otherwise; the explicit absence signal is returned when no Patient resource
with the requested id exists — a Patient present with a missing or
unparseable birth date raises instead. -/
theorem C3_theorem (fhir : FhirData) (pid : Nat) (today : Int) :
    ((∀ r ∈ fhir.flatten, isPatientWithId pid r = false) →
      cholest_reference_values fhir pid today = .ok none) ∧
    (∀ (b : Int) (m : List (Int × List Int)),
      findBirthDate fhir pid = .ok (some b) →
      cholest_reference_values fhir pid today = .ok (some m) →
      ∀ p ∈ m, p.2 = if ((p.1 - b : Int) : ℚ) / 365 < 20 then [170, 199] else [199, 239]) := by
  constructor
  · exact cholref_none fhir pid today
  · intro b m h1 h2 p hp
    cases hmm : get_measurements fhir pid "Cholesterol" with
    | error e =>
      exfalso
      cases e
      rw [show cholest_reference_values fhir pid today = .error () by
        simp only [cholest_reference_values, h1, hmm]] at h2
      exact Except.noConfusion h2
    | ok mm =>
      rw [cholref_eval fhir pid today b mm h1 hmm] at h2
      have hm : m = (sortedSet ([b] ++ [b + 20 * 365] ++ cholMeasDates mm ++ [today])).map
          fun d => (d, ageBand b d) := by
        cases h2
        rfl
      subst hm
      rcases List.mem_map.mp hp with ⟨d, _, hd⟩
      rw [← hd]
      simp [ageBand]

/-- The reference-band output on `exRef` for today = 20961. -/
def exRefBands : List (Int × List Int) :=
  [(10961, [170, 199]), (18261, [199, 239]), (20961, [199, 239])]

theorem exRef_eval : cholest_reference_values exRef 1 20961 = .ok (some exRefBands) := by
  rw [cholref_eval exRef 1 20961 10961 [("Cholest SerPl-mCnc", [])] (by decide) (by decide)]
  simp only [ageBand_decide]
  decide

/-- Claim C3, witness: for an id absent from the store the explicit absence
signal is returned, and on `exRef` the birth-date entry of the output is the
under-20 band. -/
theorem C3_witness :
    cholest_reference_values exRef 2 0 = .ok none ∧
    ([170, 199] : List Int) =
      (if ((10961 - 10961 : Int) : ℚ) / 365 < 20 then [170, 199] else [199, 239]) := by
  constructor
  · exact (C3_theorem exRef 2 0).1 (by decide)
  · exact (C3_theorem exRef 1 20961).2 10961 exRefBands (by decide) exRef_eval
      (10961, [170, 199]) (by decide)

/-- Claim C4.  On a successful reference-band computation for a resolvable
birth date, the output's dates are strictly increasing (hence duplicate
free) and always include the birth date and the `today` sentinel — also
with zero measurements. -/
theorem C4_theorem (fhir : FhirData) (pid : Nat) (today b : Int)
    (m : List (Int × List Int))
    (h1 : findBirthDate fhir pid = .ok (some b))
    (h2 : cholest_reference_values fhir pid today = .ok (some m)) :
    (m.map Prod.fst).Pairwise (· < ·) ∧
    b ∈ m.map Prod.fst ∧ today ∈ m.map Prod.fst := by
  cases hmm : get_measurements fhir pid "Cholesterol" with
  | error e =>
    exfalso
    cases e
    rw [show cholest_reference_values fhir pid today = .error () by
      simp only [cholest_reference_values, h1, hmm]] at h2
    exact Except.noConfusion h2
  | ok mm =>
    rw [cholref_eval fhir pid today b mm h1 hmm] at h2
    have hm : m = (sortedSet ([b] ++ [b + 20 * 365] ++ cholMeasDates mm ++ [today])).map
        fun d => (d, ageBand b d) := by
      cases h2
      rfl
    subst hm
    rw [map_const_keys]
    refine ⟨sortedSet_pairwise _, ?_, ?_⟩
    · rw [sortedSet_mem]
      simp
    · rw [sortedSet_mem]
      simp

/-- Claim C4, witness: on `exRef` (zero measurements) the dates are
strictly increasing and contain the birth date 10961 and today 20961. -/
theorem C4_witness :
    (exRefBands.map Prod.fst).Pairwise (· < ·) ∧
    (10961 : Int) ∈ exRefBands.map Prod.fst ∧
    (20961 : Int) ∈ exRefBands.map Prod.fst :=
  C4_theorem exRef 1 20961 10961 exRefBands (by decide) exRef_eval

theorem ifEmpty_nil_iff (l : DateMap) :
    ((if l.isEmpty then [] else l.map Prod.fst) = ([] : List Int)) ↔ l = [] := by
  cases l with
  | nil => simp
  | cons x xs => simp

theorem measDates_nil_iff (meas : MeasMap) :
    ((meas.map fun q => if q.2.isEmpty then [] else q.2.map Prod.fst).flatten = []) ↔
      ∀ q ∈ meas, q.2 = [] := by
  induction meas with
  | nil => simp
  | cons q qs ih =>
    simp only [List.map_cons, List.flatten_cons, List.append_eq_nil, ih, ifEmpty_nil_iff]
    constructor
    · rintro ⟨h1, h2⟩ q2 hq2
      rcases List.mem_cons.mp hq2 with h3 | h3
      · subst h3; exact h1
      · exact h2 q2 h3
    · intro h
      exact ⟨h q (List.mem_cons_self q qs),
        fun q2 hq2 => h q2 (List.mem_cons_of_mem q hq2)⟩

theorem medDates_nil_iff (med : MedMap) :
    ((med.map fun q => q.2.filterMap (fun r => r.date)).flatten = []) ↔
      ∀ q ∈ med, ∀ r ∈ q.2, r.date = none := by
  induction med with
  | nil => simp
  | cons q qs ih =>
    simp only [List.map_cons, List.flatten_cons, List.append_eq_nil, ih,
      List.filterMap_eq_nil_iff]
    constructor
    · rintro ⟨h1, h2⟩ q2 hq2
      rcases List.mem_cons.mp hq2 with h3 | h3
      · subst h3; exact h1
      · exact h2 q2 h3
    · intro h
      exact ⟨h q (List.mem_cons_self q qs),
        fun q2 hq2 => h q2 (List.mem_cons_of_mem q hq2)⟩

theorem allPlotDates_nil_iff (meas : MeasMap) (med : MedMap) :
    allPlotDates meas med = [] ↔
      ((∀ q ∈ meas, q.2 = []) ∧ (∀ q ∈ med, ∀ r ∈ q.2, r.date = none)) := by
  unfold allPlotDates
  rw [List.append_eq_nil, measDates_nil_iff, medDates_nil_iff]

/-- Claim C7.  The compositor's default window: the explicit no-window
signal exactly when there is no dated data at all; otherwise the window is
`min - 8` to `max + 8` over every measurement date and every dated
medication event; in particular measurement dates 2020-01-01 and 2020-06-01
with no medications yield 2019-12-24 to 2020-06-09. -/
theorem C7_theorem (meas : MeasMap) (med : MedMap) :
    (get_data_date_limits meas med = none ↔
      ((∀ q ∈ meas, q.2 = []) ∧ (∀ q ∈ med, ∀ r ∈ q.2, r.date = none))) ∧
    (∀ a bnd : Int, get_data_date_limits meas med = some (a, bnd) →
      (∀ d ∈ allPlotDates meas med, a ≤ d - 8 ∧ d + 8 ≤ bnd) ∧
      (∃ d ∈ allPlotDates meas med, a = d - 8) ∧
      (∃ d ∈ allPlotDates meas med, bnd = d + 8)) ∧
    get_data_date_limits exC7meas [] =
      some (daysFromCivil 2019 12 24, daysFromCivil 2020 6 9) := by
  refine ⟨?_, ?_, by decide⟩
  · rw [← allPlotDates_nil_iff meas med]
    unfold get_data_date_limits
    by_cases h : (allPlotDates meas med).isEmpty
    · rw [if_pos h]
      simp only [true_iff]
      exact List.isEmpty_iff.mp h
    · rw [if_neg h]
      constructor
      · intro hh; exact absurd hh (by simp)
      · intro hh; exact absurd (by rw [hh]; rfl : (allPlotDates meas med).isEmpty = true) h
  · intro a bnd hres
    unfold get_data_date_limits at hres
    by_cases h : (allPlotDates meas med).isEmpty
    · rw [if_pos h] at hres; exact absurd hres (by simp)
    · rw [if_neg h] at hres
      have hne : allPlotDates meas med ≠ [] := by
        intro hh
        exact h (by rw [hh]; rfl)
      have hab := Option.some.inj hres
      have ha : pyMin (allPlotDates meas med) - 8 = a := congrArg Prod.fst hab
      have hb : pyMax (allPlotDates meas med) + 8 = bnd := congrArg Prod.snd hab
      refine ⟨?_, ?_, ?_⟩
      · intro d hd
        constructor
        · rw [← ha]
          exact sub_le_sub_right (pyMin_le _ d hd) 8
        · rw [← hb]
          exact add_le_add_right (pyMax_ge _ d hd) 8
      · exact ⟨pyMin (allPlotDates meas med), pyMin_mem _ hne, by rw [← ha]⟩
      · exact ⟨pyMax (allPlotDates meas med), pyMax_mem _ hne, by rw [← hb]⟩

/-- Claim C7, witness: on the 2020-01-01 / 2020-06-01 store the window is
attained at the data dates with the 8-day padding on each side. -/
theorem C7_witness :
    ((18254 : Int) ≤ daysFromCivil 2020 1 1 - 8 ∧ daysFromCivil 2020 1 1 + 8 ≤ (18422 : Int)) ∧
    (∃ d ∈ allPlotDates exC7meas [], (18254 : Int) = d - 8) ∧
    (∃ d ∈ allPlotDates exC7meas [], (18422 : Int) = d + 8) := by
  have h := (C7_theorem exC7meas []).2.1 18254 18422 (by decide)
  exact ⟨h.1 (daysFromCivil 2020 1 1) (by decide), h.2.1, h.2.2⟩

theorem compute_axis_limits_true (cv gv : List ℚ) :
    compute_axis_limits cv gv true =
      ((if (glucAxisLimits gv).1 <
            glucoseMapSlope * (cholAxisLimits cv).1 + glucoseMapIntercept then
          ((glucAxisLimits gv).1 - glucoseMapIntercept) / glucoseMapSlope
        else (cholAxisLimits cv).1,
        if (glucAxisLimits gv).2 >
            glucoseMapSlope * (cholAxisLimits cv).2 + glucoseMapIntercept then
          ((glucAxisLimits gv).2 - glucoseMapIntercept) / glucoseMapSlope
        else (cholAxisLimits cv).2),
       (glucoseMapSlope *
          (if (glucAxisLimits gv).1 <
              glucoseMapSlope * (cholAxisLimits cv).1 + glucoseMapIntercept then
            ((glucAxisLimits gv).1 - glucoseMapIntercept) / glucoseMapSlope
          else (cholAxisLimits cv).1) + glucoseMapIntercept,
        glucoseMapSlope *
          (if (glucAxisLimits gv).2 >
              glucoseMapSlope * (cholAxisLimits cv).2 + glucoseMapIntercept then
            ((glucAxisLimits gv).2 - glucoseMapIntercept) / glucoseMapSlope
          else (cholAxisLimits cv).2) + glucoseMapIntercept)) := rfl

/-- Claim C2.  With reference bands present: the pinned mapping sends 199
to 100 and 239 to 125; the glucose axis is exactly the linear image of the
final cholesterol axis; the cholesterol axis only ever widens relative to
its provisional data-driven limits; the mapped axis contains the
independently computed glucose limits (so a final cholesterol axis of
`[199, 239]` yields the glucose axis `[100, 125]`, by the pin equations and
the linear-image equations); and a concrete instance where the glucose data
pins the expanded lower cholesterol limit to exactly 199 mapping back to
glucose 100. -/
theorem C2_theorem :
    (glucoseMapSlope * 199 + glucoseMapIntercept = 100 ∧
     glucoseMapSlope * 239 + glucoseMapIntercept = 125) ∧
    (∀ cv gv : List ℚ,
      ((compute_axis_limits cv gv true).2.1 =
         glucoseMapSlope * (compute_axis_limits cv gv true).1.1 + glucoseMapIntercept ∧
       (compute_axis_limits cv gv true).2.2 =
         glucoseMapSlope * (compute_axis_limits cv gv true).1.2 + glucoseMapIntercept) ∧
      ((compute_axis_limits cv gv true).1.1 ≤ (cholAxisLimits cv).1 ∧
       (cholAxisLimits cv).2 ≤ (compute_axis_limits cv gv true).1.2) ∧
      ((compute_axis_limits cv gv true).2.1 ≤ (glucAxisLimits gv).1 ∧
       (glucAxisLimits gv).2 ≤ (compute_axis_limits cv gv true).2.2)) ∧
    compute_axis_limits [250] [1000/9, 1250/11] true = ((199, 275), (100, 295/2)) := by
  have hm : glucoseMapSlope = 5/8 := by norm_num [glucoseMapSlope]
  have hb : glucoseMapIntercept = -195/8 := by
    norm_num [glucoseMapIntercept, glucoseMapSlope]
  refine ⟨⟨by rw [hm, hb]; norm_num, by rw [hm, hb]; norm_num⟩, ?_, ?_⟩
  · intro cv gv
    rw [compute_axis_limits_true]
    rcases cholAxisLimits cv with ⟨cmin, cmax⟩
    rcases glucAxisLimits gv with ⟨gmin, gmax⟩
    dsimp only
    rw [hm, hb]
    split_ifs with h1 h2 h2
    · refine ⟨⟨rfl, rfl⟩, ⟨?_, ?_⟩, ⟨?_, ?_⟩⟩
      · rw [div_le_iff₀ (by norm_num : (0:ℚ) < 5/8)]; linarith
      · rw [le_div_iff₀ (by norm_num : (0:ℚ) < 5/8)]; linarith
      · rw [mul_comm, div_mul_cancel₀ _ (by norm_num : (5:ℚ)/8 ≠ 0)]; linarith
      · rw [mul_comm, div_mul_cancel₀ _ (by norm_num : (5:ℚ)/8 ≠ 0)]; linarith
    · refine ⟨⟨rfl, rfl⟩, ⟨?_, le_refl _⟩, ⟨?_, ?_⟩⟩
      · rw [div_le_iff₀ (by norm_num : (0:ℚ) < 5/8)]; linarith
      · rw [mul_comm, div_mul_cancel₀ _ (by norm_num : (5:ℚ)/8 ≠ 0)]; linarith
      · linarith
    · refine ⟨⟨rfl, rfl⟩, ⟨le_refl _, ?_⟩, ⟨?_, ?_⟩⟩
      · rw [le_div_iff₀ (by norm_num : (0:ℚ) < 5/8)]; linarith
      · linarith
      · rw [mul_comm, div_mul_cancel₀ _ (by norm_num : (5:ℚ)/8 ≠ 0)]; linarith
    · exact ⟨⟨rfl, rfl⟩, ⟨le_refl _, le_refl _⟩, ⟨by linarith, by linarith⟩⟩
  · rw [compute_axis_limits_true]
    have hcl : cholAxisLimits [250] = (225, 275) := by
      unfold cholAxisLimits pyMin pyMax
      norm_num
    have hgl : glucAxisLimits [1000/9, 1250/11] = (100, 125) := by
      unfold glucAxisLimits pyMin pyMax
      norm_num [min_def, max_def]
    rw [hcl, hgl, hm, hb]
    norm_num

theorem tab20c_div (i n : Nat) (h2 : 2 ≤ n) :
    tab20c ((i : ℚ) / ((n : ℚ) - 1)) = min ((20 * i) / (n - 1)) 19 := by
  unfold tab20c
  have h1 : (1 : ℕ) ≤ n := le_trans (by norm_num) h2
  have hn : ((n : ℚ) - 1) = ((n - 1 : ℕ) : ℚ) := by
    rw [Nat.cast_sub h1]
    norm_num
  rw [hn]
  have hx : (i : ℚ) / ((n - 1 : ℕ) : ℚ) * 20 = ((20 * i : ℕ) : ℚ) / ((n - 1 : ℕ) : ℚ) := by
    push_cast
    ring
  rw [hx, Nat.floor_div_nat, Nat.floor_natCast]

theorem colormap_eval (meas : MeasMap) (med : MedMap)
    (h2 : 2 ≤ (meas.map Prod.fst ++ med.map Prod.fst).length) :
    create_combined_colormap meas med =
      .ok ((meas.map Prod.fst ++ med.map Prod.fst).zip
        ((List.range (meas.map Prod.fst ++ med.map Prod.fst).length).map
          fun i => min ((20 * i) / ((meas.map Prod.fst ++ med.map Prod.fst).length - 1)) 19)) := by
  unfold create_combined_colormap
  rw [if_neg (by omega)]
  have hcong : ∀ i ∈ List.range (meas.map Prod.fst ++ med.map Prod.fst).length,
      tab20c ((i : ℚ) / (((meas.map Prod.fst ++ med.map Prod.fst).length : ℚ) - 1)) =
        min ((20 * i) / ((meas.map Prod.fst ++ med.map Prod.fst).length - 1)) 19 :=
    fun i _ => tab20c_div i _ h2
  rw [List.map_congr_left hcong]

theorem bins_inj :
    ∀ n < 21, 2 ≤ n → ∀ i < n, ∀ j < n,
      min ((20 * i) / (n - 1)) 19 = min ((20 * j) / (n - 1)) 19 → i = j := by
  decide

/-- Claim C9, counterexample.  With 21 distinct codes the palette (the
20-entry `tab20c` colormap) repeats: the last two codes receive the same
color, so distinct codes do not always get distinct colors. -/
theorem C9_counterexample :
    ∃ cm : List (String × ℕ), create_combined_colormap exC9meas [] = .ok cm ∧
      (cm.map Prod.fst).Nodup ∧ ¬ (cm.map Prod.snd).Nodup := by
  refine ⟨_, colormap_eval exC9meas [] (by decide), ?_, ?_⟩
  · decide
  · decide

/-- Claim C9, amended.  When the total code count is at least 2 (with
exactly one code the palette construction divides by zero and the call
fails) and at most 20 (the palette has 20 discrete colors; beyond that they
repeat), the color assignment succeeds, its order is the measurement codes
followed by the medication codes, and all assigned colors are pairwise
distinct; the assignment is a pure function of the two mappings, hence
deterministic. -/
theorem C9_theorem (meas : MeasMap) (med : MedMap)
    (h2 : 2 ≤ (meas.map Prod.fst ++ med.map Prod.fst).length)
    (h20 : (meas.map Prod.fst ++ med.map Prod.fst).length ≤ 20) :
    ∃ cm : List (String × ℕ), create_combined_colormap meas med = .ok cm ∧
      cm.map Prod.fst = meas.map Prod.fst ++ med.map Prod.fst ∧
      (cm.map Prod.snd).Nodup := by
  refine ⟨_, colormap_eval meas med h2, ?_, ?_⟩
  · rw [List.map_fst_zip]
    rw [List.length_map, List.length_range]
  · rw [List.map_snd_zip]
    · apply List.Nodup.map_on ?_ (List.nodup_range _)
      intro i hi j hj hf
      have hi2 := List.mem_range.mp hi
      have hj2 := List.mem_range.mp hj
      exact bins_inj _ (by omega) h2 i hi2 j hj2 hf
    · rw [List.length_map, List.length_range]

/-- Claim C9, witness: two measurement codes and no medication codes get
the two evenly spaced palette entries, in order, with distinct colors. -/
theorem C9_witness :
    ∃ cm : List (String × ℕ),
      create_combined_colormap [("a", []), ("b", [])] [] = .ok cm ∧
      cm.map Prod.fst =
        ([("a", []), ("b", [])] : MeasMap).map Prod.fst ++ ([] : MedMap).map Prod.fst ∧
      (cm.map Prod.snd).Nodup :=
  C9_theorem [("a", []), ("b", [])] [] (by decide) (by decide)

/-- Claim C8, counterexample.  A mapping with a single code holding data is
not the all-empty state, yet the call fails (the colormap's division by
zero on one code) instead of yielding a rendered result. -/
theorem C8_counterexample :
    (exC8meas.all (fun q => q.2.isEmpty) = false) ∧
    generate_plot_uri exC8meas [] none = .error () := by
  constructor
  · decide
  · rfl

/-- Claim C8, amended.  The call returns the explicit no-data signal
exactly when every code's measurement data and every code's medication list
are empty; and whenever some data exists and the total number of codes is
not exactly one, it returns a rendered figure. -/
theorem C8_theorem (meas : MeasMap) (med : MedMap) (ref : Option (List (Int × List Int))) :
    (generate_plot_uri meas med ref = .ok none ↔
      (meas.all (fun q => q.2.isEmpty) && med.all (fun q => q.2.isEmpty)) = true) ∧
    ((meas.all (fun q => q.2.isEmpty) && med.all (fun q => q.2.isEmpty)) = false →
      meas.length + med.length ≠ 1 →
      ∃ fig : PlotFig, generate_plot_uri meas med ref = .ok (some fig)) := by
  constructor
  · unfold generate_plot_uri
    by_cases hemp : (meas.all (fun q => q.2.isEmpty) && med.all (fun q => q.2.isEmpty)) = true
    · rw [if_pos hemp]
      simp [hemp]
    · rw [if_neg hemp]
      simp only [hemp]
      constructor
      · intro hh
        exfalso
        revert hh
        cases plot_measurements meas med ref with
        | error e => intro hh; exact Except.noConfusion hh
        | ok f =>
          intro hh
          have := Except.ok.inj hh
          exact Option.noConfusion this
      · intro hh
        exact Bool.noConfusion hh
  · intro hfalse hn
    have hpm : ∃ cm, create_combined_colormap meas med = .ok cm := by
      unfold create_combined_colormap
      rw [if_neg (by simpa [List.length_append] using hn)]
      exact ⟨_, rfl⟩
    rcases hpm with ⟨cm, hcm2⟩
    refine ⟨⟨cm,
      (compute_axis_limits (plottedChol meas) (plottedGluc meas) (refTruthy ref)).1,
      (compute_axis_limits (plottedChol meas) (plottedGluc meas) (refTruthy ref)).2⟩, ?_⟩
    unfold generate_plot_uri
    rw [if_neg (by rw [hfalse]; exact Bool.noConfusion)]
    simp only [plot_measurements, hcm2]

/-- Claim C8, witness: a store with one cholesterol point and the six
always-present statin keys renders a figure. -/
theorem C8_witness :
    ∃ fig : PlotFig, generate_plot_uri exC7meas exMedEmpty none = .ok (some fig) :=
  (C8_theorem exC7meas exMedEmpty none).2 (by decide) (by decide)

end HealthApp
